import Mathlib

/-!
Verification of the Mindminer content-based recommender core:
a shallow embedding of `src/evaluation/metrics.py` and
`src/training/recommender.py`, followed by theorems settling the
specification claims about them.

Similarity values and metric results are modelled as rationals
(`ℚ`); the DCG/NDCG metrics, whose discount is `log2`, are modelled
over the reals (`ℝ`) with `Real.logb 2`.
-/

open List

namespace Mindminer

/-! ### Python slice and default-argument semantics -/

/-- Normalise a Python slice endpoint `i` against a list of length `n`:
a negative endpoint counts from the end (`i + n`, clamped below at 0),
a non-negative one is clamped above at `n`. -/
def pyIdx (n : ℕ) (i : ℤ) : ℕ :=
  if i < 0 then (i + n).toNat else min i.toNat n

/-- Python `l[:stop]`. -/
def pySliceTo (l : List α) (stop : ℤ) : List α :=
  l.take (pyIdx l.length stop)

/-- Python `l[1:stop]`. -/
def pySliceFrom1 (l : List α) (stop : ℤ) : List α :=
  (l.take (pyIdx l.length stop)).drop 1

/-- Python `k or n` for `k : Optional[int]`: both `None` and `0` are falsy,
so both default to `n`. -/
def pyOrLen (k : Option ℤ) (n : ℕ) : ℤ :=
  match k with
  | none => (n : ℤ)
  | some v => if v = 0 then (n : ℤ) else v

/-! ### metrics.py — tag-set relevance -/

/-- A Python value passed in a `tags` position: a string, or any
non-string value (absent/None/NaN/...), which `_tag_set` treats alike
via its `isinstance` guard. -/
inductive TagInput
  | str (s : String)
  | notStr
deriving DecidableEq

/-- Python `str.split()` (no argument): the maximal whitespace-free runs of
the character list, in order; runs of whitespace separate tokens and never
produce empty tokens.  `acc` accumulates the current token reversed. -/
def pySplitWS (acc : List Char) : List Char → List (List Char)
  | [] => if acc = [] then [] else [acc.reverse]
  | c :: cs =>
    if c.isWhitespace then
      if acc = [] then pySplitWS [] cs else acc.reverse :: pySplitWS [] cs
    else pySplitWS (c :: acc) cs

/-- Embeds `_tag_set` (metrics.py): a non-string input or one whose strip is empty
(i.e. all characters whitespace) gives the empty set; otherwise the set of
lowercased whitespace tokens.  The tokens of Python `split()` are non-empty
and whitespace-free, so the source's per-token `strip()` and its
non-emptiness guard are identities on them and add nothing here. -/
def tag_set : TagInput → Finset String
  | .notStr => ∅
  | .str s =>
    if s.toList.all (fun c => c.isWhitespace) then ∅
    else ((pySplitWS [] s.toList).map
      (fun t => String.mk (t.map Char.toLower))).toFinset

/-- Embeds `relevance_by_tag_overlap` (metrics.py): true iff the two tag sets share
at least `min_common` tokens (the source default for `min_common` is 3). -/
def relevance_by_tag_overlap (query_tags candidate_tags : TagInput)
    (min_common : ℤ) : Bool :=
  decide (min_common ≤ ((tag_set query_tags ∩ tag_set candidate_tags).card : ℤ))

/-- Embeds `relevance_score_tag_overlap` (metrics.py): Jaccard index of the two tag
sets; 0 when either set is empty. -/
def relevance_score_tag_overlap (query_tags candidate_tags : TagInput) : ℚ :=
  let a := tag_set query_tags
  let b := tag_set candidate_tags
  if a = ∅ ∨ b = ∅ then 0
  else ((a ∩ b).card : ℚ) / ((a ∪ b).card : ℚ)

/-! ### metrics.py — precision, coverage, diversity -/

/-- Embeds `precision_at_k` (metrics.py): after `k = k or len(recommended)`,
`|set(recommended[:k]) ∩ set(relevant)| / k`, with 0 when the effective
`k` is 0. -/
def precision_at_k (recommended relevant : List ℕ) (k : Option ℤ) : ℚ :=
  let kEff := pyOrLen k recommended.length
  let rec_k := (pySliceTo recommended kEff).toFinset
  let rel := relevant.toFinset
  if kEff = 0 then 0
  else ((rec_k ∩ rel).card : ℚ) / (kEff : ℚ)

/-- Embeds `catalog_coverage` (metrics.py): fraction of the catalog covered by the
union of all recommendation lists; 0 when the catalog is empty. -/
def catalog_coverage (all_recommendations : List (List ℕ))
    (catalog_size : ℕ) : ℚ :=
  if catalog_size = 0 then 0
  else ((all_recommendations.flatten.toFinset.card : ℚ)) / (catalog_size : ℚ)

/-- The ordered pairs `(l[i], l[j])` with `i < j`, as produced by the nested
loops of `intra_list_diversity`. -/
def listPairs : List α → List (α × α)
  | [] => []
  | x :: xs => (xs.map (fun y => (x, y))) ++ listPairs xs

/-- Embeds `intra_list_diversity` (metrics.py): mean of `1 - sim[i][j]` over the
unordered pairs of `recommended_indices`; 0 when fewer than two indices. -/
def intra_list_diversity (sim : ℕ → ℕ → ℚ)
    (recommended_indices : List ℕ) : ℚ :=
  if recommended_indices.length < 2 then 0
  else
    let ps := listPairs recommended_indices
    let total := (ps.map (fun p => 1 - sim p.1 p.2)).sum
    if ps.length = 0 then 0 else total / (ps.length : ℚ)

/-- Embeds `average_diversity` (metrics.py): mean of `intra_list_diversity` over the
lists with at least two items; 0 when there is no such list. -/
def average_diversity (sim : ℕ → ℕ → ℚ)
    (all_recommendations : List (List ℕ)) : ℚ :=
  if all_recommendations = [] then 0
  else
    let divs := (all_recommendations.filter
      (fun r => decide (2 ≤ r.length))).map (intra_list_diversity sim)
    if divs = [] then 0 else divs.sum / (divs.length : ℚ)

/-! ### metrics.py — DCG and NDCG (over ℝ, discount `log2(i+2)`) -/

/-- Embeds `dcg_at_k` (metrics.py): `Σ_i grades[i] / log2(i+2)` over
`relevance_grades[:k]`; 0 for an empty grade slice. -/
noncomputable def dcg_at_k (relevance_grades : List ℝ) (k : ℤ) : ℝ :=
  let grades := pySliceTo relevance_grades k
  if grades.isEmpty then 0
  else (grades.enum.map (fun p => p.2 / Real.logb 2 ((p.1 : ℝ) + 2))).sum

/-- Python `sorted(l, reverse=True)` on a list of grades (values only, so
stability is immaterial): insertion sort by `≥`. -/
noncomputable def sortedDesc (l : List ℝ) : List ℝ :=
  l.insertionSort (fun a b => b ≤ a)

/-- Embeds `ndcg_at_k` (metrics.py): `k = k or len(recommended)`; DCG of the grades
of `recommended[:k]` over the DCG of the descending-sorted grades of the
items `0 .. len(recommended)-1`, sliced to `k`; 0 when the latter is ≤ 0. -/
noncomputable def ndcg_at_k (recommended : List ℕ) (relevance_fn : ℕ → ℝ)
    (k : Option ℤ) : ℝ :=
  let kEff := pyOrLen k recommended.length
  let rec_k := pySliceTo recommended kEff
  let grades := rec_k.map relevance_fn
  let idcg_grades :=
    pySliceTo (sortedDesc ((List.range recommended.length).map relevance_fn)) kEff
  let dcg := dcg_at_k grades kEff
  let idcg := dcg_at_k idcg_grades kEff
  if idcg ≤ 0 then 0 else dcg / idcg

/-- Modelled from the spec: `ndcgAtK` as the spec's words describe it, for
comparison with the code's `ndcg_at_k` — "the ideal ordering sorts the
relevance grades of *all* catalog items descending and takes the first k",
so the ideal ranges over an explicit `catalogSize`, not over
`len(recommended)`. -/
noncomputable def ndcg_at_k_specIdeal (catalogSize : ℕ) (recommended : List ℕ)
    (relevance_fn : ℕ → ℝ) (k : Option ℤ) : ℝ :=
  let kEff := pyOrLen k recommended.length
  let grades := (pySliceTo recommended kEff).map relevance_fn
  let ideal :=
    pySliceTo (sortedDesc ((List.range catalogSize).map relevance_fn)) kEff
  if dcg_at_k ideal kEff ≤ 0 then 0
  else dcg_at_k grades kEff / dcg_at_k ideal kEff

/-! ### recommender.py — the ranker -/

/-- The comparison Python's stable `sorted(..., key=lambda x: x[1],
reverse=True)` sorts by: `a` may precede `b` iff `b.2 ≤ a.2`. -/
def simDescLE (a b : ℕ × ℚ) : Prop := b.2 ≤ a.2

instance : DecidableRel simDescLE :=
  fun a b => inferInstanceAs (Decidable (b.2 ≤ a.2))

instance : IsTotal (ℕ × ℚ) simDescLE :=
  ⟨fun a b => le_total b.2 a.2⟩

instance : IsTrans (ℕ × ℚ) simDescLE :=
  ⟨fun _ _ _ h1 h2 => le_trans h2 h1⟩

/-- Embeds `enumerate(distances)` for the query row `q` of an `n × n` similarity
matrix. -/
def enumRow (sim : ℕ → ℕ → ℚ) (n q : ℕ) : List (ℕ × ℚ) :=
  (List.range n).map (fun i => (i, sim q i))

/-- Embeds `sorted(enumerate(distances), key=lambda x: x[1], reverse=True)`:
a stable descending sort of the enumerated row. -/
def sortedRow (sim : ℕ → ℕ → ℚ) (n q : ℕ) : List (ℕ × ℚ) :=
  (enumRow sim n q).insertionSort simDescLE

/-- The `ranked` slice `sorted(...)[1 : top_k + 1]` of `recommend`
(recommender.py), as index/similarity pairs. -/
def rankedPairs (sim : ℕ → ℕ → ℚ) (n q : ℕ) (top_k : ℤ) : List (ℕ × ℚ) :=
  pySliceFrom1 (sortedRow sim n q) (top_k + 1)

/-- The ranked list of item indices `recommend` would return titles for. -/
def topKIndices (sim : ℕ → ℕ → ℚ) (n q : ℕ) (top_k : ℤ) : List ℕ :=
  (rankedPairs sim n q top_k).map Prod.fst

/-- Embeds `recommend` (recommender.py): look the movie title up in the catalog
(first match); when absent, return a one-element list holding a
not-found message (the source formats the title into the message inside
single quotes; the quoting characters are immaterial here); otherwise map
the ranked indices back to titles. -/
def recommend (titles : List String) (sim : ℕ → ℕ → ℚ) (movie : String)
    (top_k : ℤ) : List String :=
  match titles.findIdx? (fun t => t == movie) with
  | none => ["Movie not found: " ++ movie]
  | some q => (topKIndices sim titles.length q top_k).map (fun i => titles.getD i "")

/-- The self-dominance condition on the query row under which the
slice-off-the-first-element implementation of `recommend` really drops the
query itself: the self-similarity strictly exceeds the similarity to every
earlier-indexed item and is at least the similarity to every
later-indexed item. -/
def selfDominant (sim : ℕ → ℕ → ℚ) (n q : ℕ) : Prop :=
  (∀ j, j < q → sim q j < sim q q) ∧ (∀ j, q < j → j < n → sim q j ≤ sim q q)

/-! ### Concrete instances used by counterexamples and witnesses -/

/-- A 5-item query row with strictly decreasing similarities
`3, 2, 1, 0, 0` for query 0. -/
def rowDesc : ℕ → ℕ → ℚ := fun _ j =>
  if j = 0 then 3 else if j = 1 then 2 else if j = 2 then 1 else 0

/-- A 3-item query row `3, 1, 1` for query 0: items 1 and 2 tie. -/
def rowTie : ℕ → ℕ → ℚ := fun _ j => if j = 0 then 3 else 1

/-- A catalog whose second title happens to equal the not-found message for
the absent title `y`. -/
def collidingTitles : List String := ["x", "Movie not found: y"]

/-- A query row preferring item 0, used with `collidingTitles`. -/
def rowPrefer0 : ℕ → ℕ → ℚ := fun _ j => if j = 0 then 1 else 0

/-- The graded-relevance function of the NDCG counterexample: item 0 has
grade 1/2, all others grade 1. -/
noncomputable def gradeHalfAt0 : ℕ → ℝ := fun i => if i = 0 then (1 : ℝ)/2 else 1

/-! ### Helper lemmas -/

theorem mem_enumRow {sim : ℕ → ℕ → ℚ} {n q : ℕ} {p : ℕ × ℚ}
    (hp : p ∈ enumRow sim n q) : p.1 < n ∧ p = (p.1, sim q p.1) := by
  simp only [enumRow, mem_map, mem_range] at hp
  obtain ⟨i, hi, rfl⟩ := hp
  exact ⟨hi, rfl⟩

theorem enumRow_nodup (sim : ℕ → ℕ → ℚ) (n q : ℕ) : (enumRow sim n q).Nodup :=
  (nodup_range n).map (fun _ _ h => congrArg Prod.fst h)

theorem sortedRow_perm (sim : ℕ → ℕ → ℚ) (n q : ℕ) :
    sortedRow sim n q ~ enumRow sim n q :=
  perm_insertionSort _ _

theorem sortedRow_nodup (sim : ℕ → ℕ → ℚ) (n q : ℕ) :
    (sortedRow sim n q).Nodup :=
  (sortedRow_perm sim n q).nodup_iff.mpr (enumRow_nodup sim n q)

theorem pair_sublist_range {a b n : ℕ} (hab : a < b) (hbn : b < n) :
    [a, b] <+ List.range n := by
  have h1 : [a] ++ [b] <+ List.range b ++ [b] :=
    (singleton_sublist.mpr (mem_range.mpr hab)).append (Sublist.refl [b])
  have h2 : [a, b] <+ List.range (b + 1) := by
    rwa [List.range_succ]
  exact h2.trans (List.range_sublist.mpr hbn)

theorem pair_sublist_sortedRow (sim : ℕ → ℕ → ℚ) (n q : ℕ) {i j : ℕ}
    (hij : i < j) (hjn : j < n) (hsim : sim q j ≤ sim q i) :
    [(i, sim q i), (j, sim q j)] <+ sortedRow sim n q := by
  refine pair_sublist_insertionSort (show simDescLE (i, sim q i) (j, sim q j) from hsim) ?_
  have h := (pair_sublist_range hij hjn).map (fun t => (t, sim q t))
  simpa [enumRow] using h

theorem pySliceFrom1_cons_sublist (x : α) (t : List α) (e : ℤ) :
    pySliceFrom1 (x :: t) e <+ t := by
  unfold pySliceFrom1
  cases hm : pyIdx (x :: t).length e with
  | zero => simp
  | succ m =>
    rw [List.take_succ_cons, List.drop_one, List.tail_cons]
    exact take_sublist m t

/-- Relative order survives passing to a sublist of a duplicate-free list. -/
theorem sublist_pair_of_mem_of_sublist {l' l : List α} (hsub : l' <+ l) :
    l.Nodup → ∀ {a b : α}, a ∈ l' → b ∈ l' → [a, b] <+ l → [a, b] <+ l' := by
  induction hsub with
  | slnil => intro _ _ _ ha _ _; cases ha
  | cons x hsub ih =>
    intro hnd a b ha hb hab
    have hxL := (nodup_cons.mp hnd).1
    have hndL := (nodup_cons.mp hnd).2
    cases hab with
    | cons _ h2 => exact ih hndL ha hb h2
    | cons₂ _ h2 => exact absurd (hsub.subset ha) hxL
  | cons₂ x hsub ih =>
    intro hnd a b ha hb hab
    have hxL := (nodup_cons.mp hnd).1
    have hndL := (nodup_cons.mp hnd).2
    cases hab with
    | cons₂ _ h2 =>
      rcases mem_cons.mp hb with rfl | hbm
      · exact absurd (h2.subset (mem_singleton_self _)) hxL
      · exact (singleton_sublist.mpr hbm).cons₂ x
    | cons _ h2 =>
      rcases mem_cons.mp ha with rfl | ham
      · exact absurd (h2.subset (by simp)) hxL
      rcases mem_cons.mp hb with rfl | hbm
      · exact absurd (h2.subset (by simp)) hxL
      exact (ih hndL ham hbm h2).cons x

/-- Under self-dominance the stable descending sort puts the query pair
first. -/
theorem sortedRow_head_self (sim : ℕ → ℕ → ℚ) {n q : ℕ} (hq : q < n)
    (hdom : selfDominant sim n q) :
    ∃ t, sortedRow sim n q = (q, sim q q) :: t := by
  have hmem : (q, sim q q) ∈ sortedRow sim n q := by
    rw [sortedRow, mem_insertionSort]
    simp only [enumRow, mem_map, mem_range]
    exact ⟨q, hq, rfl⟩
  cases hS : sortedRow sim n q with
  | nil => rw [hS] at hmem; cases hmem
  | cons a t =>
    refine ⟨t, ?_⟩
    suffices ha : a = (q, sim q q) by rw [ha]
    have haS : a ∈ sortedRow sim n q := hS ▸ mem_cons_self a t
    obtain ⟨hai, haeq⟩ := mem_enumRow ((sortedRow_perm sim n q).subset haS)
    by_cases hiq : a.1 = q
    · rw [haeq, hiq]
    · exfalso
      have hx0t : (q, sim q q) ∈ t := by
        rw [hS] at hmem
        rcases mem_cons.mp hmem with h | h
        · exact absurd (congrArg Prod.fst h.symm) hiq
        · exact h
      have hsorted : Sorted simDescLE (sortedRow sim n q) :=
        sorted_insertionSort simDescLE _
      rw [hS] at hsorted
      have hle : simDescLE a (q, sim q q) := (sorted_cons.mp hsorted).1 _ hx0t
      rw [haeq] at hle
      rcases Nat.lt_or_ge a.1 q with hlt | hge
      · exact absurd hle (not_le.mpr (hdom.1 a.1 hlt))
      · have hqi : q < a.1 := lt_of_le_of_ne hge (Ne.symm hiq)
        have hstab := pair_sublist_sortedRow sim n q hqi hai (hdom.2 a.1 hqi hai)
        rw [hS, ← haeq] at hstab
        cases hstab with
        | cons₂ _ h2 => exact hiq (congrArg Prod.fst haeq.symm ▸ rfl)
        | cons _ h2 =>
          have hat : a ∈ t := h2.subset (by simp)
          have hnd := sortedRow_nodup sim n q
          rw [hS] at hnd
          exact (nodup_cons.mp hnd).1 hat

theorem sum_nonneg_le_length (l : List ℚ) (h : ∀ x ∈ l, 0 ≤ x ∧ x ≤ 1) :
    0 ≤ l.sum ∧ l.sum ≤ (l.length : ℚ) := by
  induction l with
  | nil => simp
  | cons a t ih =>
    have ha := h a (mem_cons_self a t)
    have ht := ih (fun x hx => h x (mem_cons_of_mem _ hx))
    rw [List.sum_cons, List.length_cons]
    push_cast
    constructor
    · linarith [ht.1, ha.1]
    · linarith [ht.2, ha.2]

theorem list_mean_mem_unit (l : List ℚ) (h : ∀ x ∈ l, 0 ≤ x ∧ x ≤ 1) :
    0 ≤ l.sum / (l.length : ℚ) ∧ l.sum / (l.length : ℚ) ≤ 1 := by
  rcases eq_or_ne l [] with rfl | hne
  · simp
  · have hlen : (0 : ℚ) < (l.length : ℚ) := by
      have := List.length_pos.mpr hne
      exact_mod_cast this
    obtain ⟨h0, h1⟩ := sum_nonneg_le_length l h
    exact ⟨div_nonneg h0 hlen.le, (div_le_one hlen).mpr h1⟩

theorem intra_list_diversity_mem_unit (sim : ℕ → ℕ → ℚ)
    (hs : ∀ i j, 0 ≤ sim i j ∧ sim i j ≤ 1) (idx : List ℕ) :
    0 ≤ intra_list_diversity sim idx ∧ intra_list_diversity sim idx ≤ 1 := by
  simp only [intra_list_diversity]
  split
  · norm_num
  · split
    · norm_num
    · have hb : ∀ x ∈ (listPairs idx).map (fun p => 1 - sim p.1 p.2),
          0 ≤ x ∧ x ≤ 1 := by
        intro x hx
        obtain ⟨p, _, rfl⟩ := mem_map.mp hx
        obtain ⟨h0, h1⟩ := hs p.1 p.2
        constructor <;> linarith
      have := list_mean_mem_unit _ hb
      simpa using this

/-! ### C3 — precision at k -/

/-- C3 (counterexample): with an explicit `k = 0` and a non-empty
recommended list, `precision_at_k` does not return 0: Python's
`k = k or len(recommended)` treats the explicit 0 as falsy and replaces it
by the list length. -/
theorem precision_at_k_explicit_zero_cex :
    precision_at_k [1] [1] (some 0) ≠ 0 := by
  norm_num [precision_at_k, pyOrLen, pySliceTo, pyIdx]

/-- C3 (amended): `k = None` and `k = 0` both default to
`len(recommended)`, so the result is 0 in the defaulted empty-list cases,
and for every explicit `k > 0` the result is
`|set(recommended[:k]) ∩ relevantSet| / k`. -/
theorem precision_at_k_amended (recommended relevant : List ℕ) (k : ℤ)
    (hk : 0 < k) :
    precision_at_k [] relevant none = 0 ∧
    precision_at_k [] relevant (some 0) = 0 ∧
    precision_at_k recommended relevant (some k) =
      (((pySliceTo recommended k).toFinset ∩ relevant.toFinset).card : ℚ) / (k : ℚ) := by
  refine ⟨by simp [precision_at_k, pyOrLen], by simp [precision_at_k, pyOrLen], ?_⟩
  simp [precision_at_k, pyOrLen, hk.ne']

/-- C3 (witness). -/
theorem precision_at_k_amended_witness :
    precision_at_k [] [7] none = 0 ∧
    precision_at_k [] [7] (some 0) = 0 ∧
    precision_at_k [1, 2, 3, 4] [2, 4, 9] (some 4) =
      (((pySliceTo [1, 2, 3, 4] 4).toFinset ∩ ([2, 4, 9] : List ℕ).toFinset).card : ℚ) / (4 : ℚ) :=
  precision_at_k_amended [1, 2, 3, 4] [2, 4, 9] 4 (by norm_num)

/-! ### C5 — behaviour on an unknown title -/

/-- C5 (counterexample): the not-found outcome is not a typed result
distinguishable from a successful recommendation list: the same
list-of-strings value is returned both for the absent title `y` and as the
successful recommendation for the present title `x`. -/
theorem recommend_not_found_untyped_cex :
    recommend collidingTitles rowPrefer0 "y" 1 =
      recommend collidingTitles rowPrefer0 "x" 1 ∧
    "y" ∉ collidingTitles ∧ "x" ∈ collidingTitles := by
  refine ⟨by decide, by decide, by decide⟩

/-- C5 (amended): when the query title is absent from the catalog,
`recommend` returns — in the same list-of-titles type as a success — a
one-element list holding a not-found message; the failure is signalled
in-band by string content rather than by a distinguishable typed outcome,
and no exception is involved (the embedded function is total). -/
theorem recommend_not_found_message (titles : List String)
    (sim : ℕ → ℕ → ℚ) (movie : String) (top_k : ℤ)
    (h : titles.findIdx? (fun t => t == movie) = none) :
    recommend titles sim movie top_k = ["Movie not found: " ++ movie] := by
  simp [recommend, h]

/-- C5 (witness). -/
theorem recommend_not_found_message_witness :
    recommend [] (fun _ _ => 0) "z" 5 = ["Movie not found: z"] :=
  recommend_not_found_message [] (fun _ _ => 0) "z" 5 rfl

/-! ### C6 — graded self-relevance -/

/-- C6 (counterexample): `" "` is a non-empty string, yet the graded
self-relevance of `" "` is 0, not 1: its tag set is empty. -/
theorem graded_self_relevance_whitespace_cex :
    relevance_score_tag_overlap (.str " ") (.str " ") = 0 ∧ " " ≠ "" := by
  constructor
  · simp [relevance_score_tag_overlap, show tag_set (.str " ") = ∅ from rfl]
  · decide

/-- C6 (amended): the graded self-relevance is 1 whenever the parsed tag
set is non-empty (the tags hold at least one non-whitespace token) and 0
whenever the tag set is empty (empty or whitespace-only tags). -/
theorem graded_self_relevance (v : TagInput) :
    (tag_set v ≠ ∅ → relevance_score_tag_overlap v v = 1) ∧
    (tag_set v = ∅ → relevance_score_tag_overlap v v = 0) := by
  constructor
  · intro h
    have hcard : ((tag_set v).card : ℚ) ≠ 0 := by
      exact_mod_cast fun h0 => h (Finset.card_eq_zero.mp (by exact_mod_cast h0))
    simp [relevance_score_tag_overlap, h, Finset.inter_self, Finset.union_self,
      div_self hcard]
  · intro h
    simp [relevance_score_tag_overlap, h]

/-- C6 (witness). -/
theorem graded_self_relevance_witness :
    relevance_score_tag_overlap (.str "a b") (.str "a b") = 1 ∧
    relevance_score_tag_overlap (.str "") (.str "") = 0 :=
  ⟨(graded_self_relevance (.str "a b")).1 (by decide),
   (graded_self_relevance (.str "")).2 rfl⟩

/-! ### C8 — catalog coverage is monotone -/

/-- C8: appending one more recommendation list never decreases
`catalog_coverage`. -/
theorem catalog_coverage_mono (lists : List (List ℕ)) (extra : List ℕ)
    (catalog_size : ℕ) :
    catalog_coverage lists catalog_size ≤
      catalog_coverage (lists ++ [extra]) catalog_size := by
  by_cases h : catalog_size = 0
  · simp [catalog_coverage, h]
  · have hc : (0 : ℚ) < (catalog_size : ℚ) := by
      exact_mod_cast Nat.pos_of_ne_zero h
    have hsub : lists.flatten.toFinset ⊆ (lists ++ [extra]).flatten.toFinset := by
      rw [List.flatten_append, List.toFinset_append]
      exact Finset.subset_union_left
    have hcard : ((lists.flatten.toFinset.card : ℚ)) ≤
        (((lists ++ [extra]).flatten.toFinset.card : ℚ)) := by
      exact_mod_cast Finset.card_le_card hsub
    rw [catalog_coverage, catalog_coverage, if_neg h, if_neg h]
    exact (div_le_div_iff_of_pos_right hc).mpr hcard

/-! ### C9 — totality of the tag-relevance functions on degenerate input -/

/-- C9: a non-string tags value (None/NaN/absent) or a whitespace-only
string parses to the empty tag set, so the boolean relevance (at its
source default `min_common = 3`) is `false` and the graded relevance is 0;
the embedded functions are total, so no error is possible. -/
theorem tag_relevance_total_on_degenerate_input (v c : TagInput)
    (h : v = .notStr ∨
      ∃ s, v = .str s ∧ s.toList.all (fun ch => ch.isWhitespace) = true) :
    tag_set v = ∅ ∧ relevance_by_tag_overlap v c 3 = false ∧
      relevance_score_tag_overlap v c = 0 := by
  have hv : tag_set v = ∅ := by
    rcases h with rfl | ⟨s, rfl, hs⟩
    · rfl
    · simp only [tag_set, hs]
      rfl
  refine ⟨hv, ?_, ?_⟩
  · simp [relevance_by_tag_overlap, hv]
  · simp [relevance_score_tag_overlap, hv]

/-- C9 (witness). -/
theorem tag_relevance_total_on_degenerate_input_witness :
    tag_set .notStr = ∅ ∧
    relevance_by_tag_overlap .notStr (.str "x y z") 3 = false ∧
    relevance_score_tag_overlap .notStr (.str "x y z") = 0 :=
  tag_relevance_total_on_degenerate_input .notStr (.str "x y z") (Or.inl rfl)

/-! ### C10 — diversity metrics stay in the unit interval -/

/-- C10: when all similarity entries lie in `[0,1]`,
`intra_list_diversity` lies in `[0,1]` (and is 0 for lists shorter than
two), and `average_diversity` lies in `[0,1]` as well. -/
theorem diversity_in_unit_interval (sim : ℕ → ℕ → ℚ)
    (hs : ∀ i j, 0 ≤ sim i j ∧ sim i j ≤ 1)
    (idx : List ℕ) (alls : List (List ℕ)) :
    (0 ≤ intra_list_diversity sim idx ∧ intra_list_diversity sim idx ≤ 1) ∧
    (idx.length < 2 → intra_list_diversity sim idx = 0) ∧
    (0 ≤ average_diversity sim alls ∧ average_diversity sim alls ≤ 1) := by
  refine ⟨intra_list_diversity_mem_unit sim hs idx, ?_, ?_⟩
  · intro h
    simp [intra_list_diversity, h]
  · simp only [average_diversity]
    split
    · norm_num
    · split
      · norm_num
      · have hb : ∀ x ∈ (alls.filter (fun r => decide (2 ≤ r.length))).map
            (intra_list_diversity sim), 0 ≤ x ∧ x ≤ 1 := by
          intro x hx
          obtain ⟨r, _, rfl⟩ := mem_map.mp hx
          exact intra_list_diversity_mem_unit sim hs r
        have := list_mean_mem_unit _ hb
        simpa using this

/-- C10 (witness). -/
theorem diversity_in_unit_interval_witness :
    (0 ≤ intra_list_diversity (fun _ _ => 1) [0, 1] ∧
      intra_list_diversity (fun _ _ => 1) [0, 1] ≤ 1) ∧
    (([0] : List ℕ).length < 2 → intra_list_diversity (fun _ _ => 1) [0] = 0) ∧
    (0 ≤ average_diversity (fun _ _ => 1) [[0, 1]] ∧
      average_diversity (fun _ _ => 1) [[0, 1]] ≤ 1) := by
  have h := diversity_in_unit_interval (fun _ _ => 1)
    (fun _ _ => by norm_num) [0, 1] [[0, 1]]
  have h' := diversity_in_unit_interval (fun _ _ => 1)
    (fun _ _ => by norm_num) [0] [[0, 1]]
  exact ⟨h.1, h'.2.1, h.2.2⟩

/-! ### C1 — self-exclusion of the ranked list -/

/-- C1 (counterexample): on the all-ones similarity matrix (a tie at the
maximum, as an all-equal row produces), the ranked list for query 1 with
`top_k = 1` contains the query's own index: the implementation drops the
*first* element of the stable descending sort, which is index 0 here, not
the query. -/
theorem topK_contains_self_on_tie_cex :
    1 ∈ topKIndices (fun _ _ => (1 : ℚ)) 2 1 1 := by decide

/-- C1 (amended): the ranked list never contains the query's own index
provided the query row is self-dominant — its self-similarity strictly
exceeds the similarity to every earlier-indexed item and is at least the
similarity to every later-indexed item (as with `sim[q][q] = 1` strictly
above all other entries).  With ties at the maximum, or an all-zero query
row, the query itself can appear. -/
theorem topK_excludes_self_of_selfDominant (sim : ℕ → ℕ → ℚ) (n q : ℕ)
    (top_k : ℤ) (hq : q < n) (hdom : selfDominant sim n q) :
    q ∉ topKIndices sim n q top_k := by
  obtain ⟨t, ht⟩ := sortedRow_head_self sim hq hdom
  intro hmem
  simp only [topKIndices, mem_map] at hmem
  obtain ⟨p, hp, hp1⟩ := hmem
  have hsub : rankedPairs sim n q top_k <+ t := by
    rw [rankedPairs, ht]
    exact pySliceFrom1_cons_sublist _ _ _
  have hpt : p ∈ t := hsub.subset hp
  have hpS : p ∈ sortedRow sim n q := ht ▸ mem_cons_of_mem _ hpt
  have hpE := mem_enumRow ((sortedRow_perm sim n q).subset hpS)
  have hpeq : p = (q, sim q q) := by rw [hpE.2, hp1]
  have hnd := sortedRow_nodup sim n q
  rw [ht] at hnd
  exact (nodup_cons.mp hnd).1 (hpeq ▸ hpt)

/-- C1 (witness). -/
theorem topK_excludes_self_witness : 0 ∉ topKIndices rowDesc 5 0 3 :=
  topK_excludes_self_of_selfDominant rowDesc 5 0 3 (by norm_num)
    ⟨fun j hj => absurd hj (Nat.not_lt_zero j),
     fun j h1 h2 => by interval_cases j <;> norm_num [rowDesc]⟩

/-! ### C4 — boundary values of k -/

/-- C4 (counterexample): `top_k = -2` is ≤ 0, yet the ranked list is not
empty: the Python slice `[1 : top_k + 1]` re-enters through negative-index
semantics (`-1` means one short of the end). -/
theorem topK_negative_k_nonempty_cex :
    topKIndices rowDesc 5 0 (-2) = [1, 2, 3] ∧ (-2 : ℤ) ≤ 0 := by
  constructor
  · decide
  · decide

/-- C4 (amended): `top_k = 0` and `top_k = -1` give an empty ranked list
(more negative values re-enter via Python negative-slice semantics), and
`top_k ≥ N-1` returns exactly the other `N-1` items whenever the query row
is self-dominant (without self-dominance the list still has `N-1` entries
but can contain the query, per C1). -/
theorem topK_k_boundaries (sim : ℕ → ℕ → ℚ) (n q : ℕ) (top_k : ℤ)
    (hq : q < n) :
    ((top_k = 0 ∨ top_k = -1) → topKIndices sim n q top_k = []) ∧
    ((n : ℤ) - 1 ≤ top_k → selfDominant sim n q →
      (topKIndices sim n q top_k).Perm ((List.range n).erase q)) := by
  have hlen : (sortedRow sim n q).length = n := by
    simp [sortedRow, enumRow]
  constructor
  · intro hk
    have hidx : pyIdx (sortedRow sim n q).length (top_k + 1) ≤ 1 := by
      rcases hk with rfl | rfl
      · simp [pyIdx]
      · simp [pyIdx]
    rw [topKIndices, rankedPairs, pySliceFrom1]
    have : ((sortedRow sim n q).take
        (pyIdx (sortedRow sim n q).length (top_k + 1))).drop 1 = [] := by
      apply List.drop_eq_nil_of_le
      calc ((sortedRow sim n q).take _).length ≤ _ := by
            rw [List.length_take]; exact min_le_left _ _
        _ ≤ 1 := hidx
    rw [this]
    rfl
  · intro hk hdom
    have hn1 : 1 ≤ n := by omega
    have hstop : pyIdx (sortedRow sim n q).length (top_k + 1) = n := by
      rw [hlen, pyIdx]
      have h0 : ¬ (top_k + 1 < 0) := by omega
      rw [if_neg h0]
      have : (n : ℤ) ≤ top_k + 1 := by omega
      have htn : n ≤ (top_k + 1).toNat := by omega
      omega
    obtain ⟨t, ht⟩ := sortedRow_head_self sim hq hdom
    have htake : (sortedRow sim n q).take n = sortedRow sim n q :=
      List.take_of_length_le (le_of_eq hlen)
    have hranked : rankedPairs sim n q top_k = t := by
      rw [rankedPairs, pySliceFrom1, hstop, htake, ht, List.drop_one,
        List.tail_cons]
    have hperm : (sortedRow sim n q).map Prod.fst ~ List.range n := by
      have h1 := (sortedRow_perm sim n q).map Prod.fst
      have h2 : (enumRow sim n q).map Prod.fst = List.range n := by
        simp [enumRow, Function.comp_def]
      rwa [h2] at h1
    rw [ht] at hperm
    simp only [map_cons] at hperm
    have := hperm.erase q
    rw [List.erase_cons_head] at this
    rw [topKIndices, hranked]
    exact this

/-- C4 (witness). -/
theorem topK_k_boundaries_witness :
    topKIndices rowDesc 5 0 0 = [] ∧
    (topKIndices rowDesc 5 0 9).Perm ((List.range 5).erase 0) :=
  ⟨(topK_k_boundaries rowDesc 5 0 0 (by norm_num)).1 (Or.inl rfl),
   (topK_k_boundaries rowDesc 5 0 9 (by norm_num)).2 (by norm_num)
     ⟨fun j hj => absurd hj (Nat.not_lt_zero j),
      fun j h1 h2 => by interval_cases j <;> norm_num [rowDesc]⟩⟩

/-! ### C7 — deterministic tie-break by ascending index -/

/-- C7: when two items ranked for the same query have equal similarity,
the smaller index precedes the larger one in the ranked list (the stable
descending sort keeps the original `enumerate` order on ties, and slicing
preserves relative order). -/
theorem topK_tie_break_ascending_index (sim : ℕ → ℕ → ℚ) (n q : ℕ)
    (top_k : ℤ) (i j : ℕ) (hij : i < j) (hsim : sim q i = sim q j)
    (hi : i ∈ topKIndices sim n q top_k)
    (hj : j ∈ topKIndices sim n q top_k) :
    [i, j] <+ topKIndices sim n q top_k := by
  simp only [topKIndices, mem_map] at hi hj
  obtain ⟨pi, hpi, hpi1⟩ := hi
  obtain ⟨pj, hpj, hpj1⟩ := hj
  have hranked_sub : rankedPairs sim n q top_k <+ sortedRow sim n q := by
    rw [rankedPairs, pySliceFrom1]
    exact (List.drop_sublist _ _).trans (List.take_sublist _ _)
  have hpiE := mem_enumRow ((sortedRow_perm sim n q).subset
    (hranked_sub.subset hpi))
  have hpjE := mem_enumRow ((sortedRow_perm sim n q).subset
    (hranked_sub.subset hpj))
  have hjn : j < n := hpj1 ▸ hpjE.1
  have hpair : [(i, sim q i), (j, sim q j)] <+ sortedRow sim n q :=
    pair_sublist_sortedRow sim n q hij hjn (le_of_eq hsim.symm)
  have hmi : (i, sim q i) ∈ rankedPairs sim n q top_k := by
    rw [← hpi1, ← hpiE.2]
    exact hpi
  have hmj : (j, sim q j) ∈ rankedPairs sim n q top_k := by
    rw [← hpj1, ← hpjE.2]
    exact hpj
  have key := sublist_pair_of_mem_of_sublist hranked_sub
    (sortedRow_nodup sim n q) hmi hmj hpair
  have := key.map Prod.fst
  simpa [topKIndices] using this

/-- C7 (witness): the spec's 3-item example with items 1 and 2 tied. -/
theorem topK_tie_break_witness : [1, 2] <+ topKIndices rowTie 3 0 2 :=
  topK_tie_break_ascending_index rowTie 3 0 2 1 2 (by norm_num)
    (by norm_num [rowTie]) (by decide) (by decide)

/-! ### C2 — the NDCG ideal ordering -/

theorem dcg_singleton (c : ℝ) : dcg_at_k [c] 1 = c := by
  have h2 : Real.logb 2 2 = 1 := Real.logb_self_eq_one (by norm_num)
  simp [dcg_at_k, pySliceTo, pyIdx, List.enum, List.enumFrom, h2]

/-- C2 (counterexample): with a 2-item catalog where item 0 has grade 1/2
and item 1 has grade 1, and the single-element recommendation `[0]`, the
code returns NDCG 1 while the claimed formula (ideal over *all* catalog
items) gives 1/2: the code's ideal ranges only over
`0 .. len(recommended)-1` and never sees item 1's grade. -/
theorem ndcg_catalog_ideal_cex :
    ndcg_at_k [0] gradeHalfAt0 none = 1 ∧
    ndcg_at_k_specIdeal 2 [0] gradeHalfAt0 none = 1/2 ∧
    ndcg_at_k [0] gradeHalfAt0 none ≠
      ndcg_at_k_specIdeal 2 [0] gradeHalfAt0 none := by
  have h1 : ndcg_at_k [0] gradeHalfAt0 none = 1 := by
    have hs : sortedDesc [(1:ℝ)/2] = [(1:ℝ)/2] := by
      simp [sortedDesc, List.insertionSort, List.orderedInsert]
    have hr : (List.range 1).map gradeHalfAt0 = [(1:ℝ)/2] := by
      norm_num [show List.range 1 = [0] from rfl, gradeHalfAt0]
    simp only [ndcg_at_k, pyOrLen, length_cons, length_nil]
    norm_num [pySliceTo, pyIdx, hr, hs, gradeHalfAt0, dcg_singleton]
  have h2 : ndcg_at_k_specIdeal 2 [0] gradeHalfAt0 none = 1/2 := by
    have hr : (List.range 2).map gradeHalfAt0 = [(1:ℝ)/2, 1] := by
      norm_num [show List.range 2 = [0, 1] from rfl, gradeHalfAt0]
    have hs : sortedDesc [(1:ℝ)/2, 1] = [1, 1/2] := by
      rw [sortedDesc]
      simp [List.insertionSort, List.orderedInsert]
      norm_num
    simp only [ndcg_at_k_specIdeal, pyOrLen, length_cons, length_nil]
    norm_num [pySliceTo, pyIdx, hr, hs, gradeHalfAt0, dcg_singleton]
  refine ⟨h1, h2, ?_⟩
  rw [h1, h2]
  norm_num

/-- C2 (amended): `ndcg_at_k` equals the claimed DCG-over-ideal-DCG
formula with the ideal grade sequence ranging over the items
`0 .. len(recommended)-1` — the code treats the recommended-list length as
the catalog size — and it returns 0 when that ideal DCG is ≤ 0. -/
theorem ndcg_ideal_over_recommended_length (recommended : List ℕ)
    (relevance_fn : ℕ → ℝ) (k : Option ℤ) :
    ndcg_at_k recommended relevance_fn k =
      ndcg_at_k_specIdeal recommended.length recommended relevance_fn k ∧
    (dcg_at_k (pySliceTo
        (sortedDesc ((List.range recommended.length).map relevance_fn))
        (pyOrLen k recommended.length)) (pyOrLen k recommended.length) ≤ 0 →
      ndcg_at_k recommended relevance_fn k = 0) := by
  refine ⟨rfl, fun h => ?_⟩
  simp only [ndcg_at_k]
  rw [if_pos h]

/-- C2 (witness). -/
theorem ndcg_ideal_over_recommended_length_witness :
    ndcg_at_k [0] (fun _ => (0:ℝ)) none =
      ndcg_at_k_specIdeal 1 [0] (fun _ => (0:ℝ)) none ∧
    ndcg_at_k [0] (fun _ => (0:ℝ)) none = 0 :=
  have h := ndcg_ideal_over_recommended_length [0] (fun _ => (0:ℝ)) none
  ⟨h.1, h.2 (by
    norm_num [pyOrLen, show List.range 1 = [0] from rfl, sortedDesc,
      List.insertionSort, List.orderedInsert, pySliceTo, pyIdx,
      dcg_singleton])⟩

end Mindminer
